import Mathlib

/-!
Verification development for the PieToolbelt dataset utilities
(`src/dataset_utils.py`): the mask composer, the annotation decoder
and the class-count normalizer (`EmptyClassesAdd`), embedded shallowly.

Conventions of the embedding:
* a 2-D `uint8` numpy array of shape `(h, w)` is a function `Mat = ℕ → ℕ → ℕ`
  together with its dimensions; only values at `y < h`, `x < w` are meaningful,
  and `uint8` arithmetic is `% 256` on `ℕ`;
* an n-D numpy array is `NdA α`: an explicit shape plus row-major flat data;
* fallible operations return `Except`; numpy broadcasting/indexing failures
  are represented by explicit error values;
* external library calls (`cv2.dilate`, `cv2.drawContours`, the base64 / zlib /
  PNG bitmap decode) are modelled from their documented behaviour, since the
  library code is not part of this repository.
-/

namespace PieToolbelt

/-- Raster of unsigned byte values, indexed as `m row col`. -/
def Mat : Type := ℕ → ℕ → ℕ

/-- The all-zero canvas (`np.zeros`). -/
def zeroMat : Mat := fun _ _ => 0

/-- Addition of `uint8` values (numpy wraps modulo 256). -/
def u8add (a b : ℕ) : ℕ := (a + b) % 256

/-- The operation `np.clip(v, 0, 1)` on nonnegative integer values. -/
def clip01 (v : ℕ) : ℕ := min v 1

/-- Read a matrix entry at a (possibly out-of-range) integer position,
padding with 0 outside the `(h, w)` canvas. -/
def getPad (h w : ℕ) (m : Mat) (y x : ℤ) : ℕ :=
  if 0 ≤ y ∧ y < (h : ℤ) ∧ 0 ≤ x ∧ x < (w : ℤ) then m y.toNat x.toNat else 0

/-- Morphological dilation, modelled from the documented behaviour of
`cv2.dilate` with the default anchor: the output at `(y, x)` is the maximum of
the input over the reflected kernel footprint, with the kernel anchor at
`(kh / 2, kw / 2)` and out-of-range reads ignored (padded with 0, the neutral
value for the maximum of `uint8` data). The kernel `K` is a `(kh, kw)` array;
positions with a nonzero kernel entry participate. -/
def dilate (K : List (List ℕ)) (h w : ℕ) (m : Mat) : Mat :=
  fun y x =>
    let kh := K.length
    let kw := (K.headD []).length
    (((List.range kh).flatMap fun i =>
      (List.range kw).filterMap fun j =>
        if (K.getD i []).getD j 0 ≠ 0 then
          some (getPad h w m ((y : ℤ) + (i : ℤ) - ((kh / 2 : ℕ) : ℤ))
                             ((x : ℤ) + (j : ℤ) - ((kw / 2 : ℕ) : ℤ)))
        else none)).foldl max 0

/-- The all-ones `(a, b)` kernel, `np.ones((a, b), dtype=np.uint8)`. -/
def onesK (a b : ℕ) : List (List ℕ) :=
  (List.range a).map fun _ => (List.range b).map fun _ => 1

/-- One value of the `MasksComposer._masks` dictionary: either a plain class
canvas, or (for border-enabled classes after their first `add_mask`) the
`{'mask': ..., 'borders': ...}` record. -/
inductive Entry where
  | plain (m : Mat)
  | withB (mask borders : Mat)

/-- State of a `MasksComposer`: the canvas shape fixed at construction, the
insertion-ordered class dictionary, and the border-as-class configuration
(set by `add_borders_as_class`). The dtype is the default `np.uint8`. -/
structure Composer where
  h : ℕ
  w : ℕ
  masks : List (ℕ × Entry)
  bordersAsClass : Bool
  betweenClasses : List ℕ
  kernel : List (List ℕ)

/-- The constructor `MasksComposer(target_shape)`: empty mask dictionary,
borders disabled. -/
def mkComposer (h w : ℕ) : Composer := ⟨h, w, [], false, [], []⟩

/-- The method `MasksComposer.add_borders_as_class(between_classes,
dilate_masks_kernel)`. The source default kernel is `np.ones((2, 2))`,
written `onesK 2 2` at call sites. -/
def Composer.addBordersAsClass (C : Composer) (between : List ℕ)
    (K : List (List ℕ)) : Composer :=
  { C with bordersAsClass := true, betweenClasses := between, kernel := K }

/-- The method `MasksComposer._calc_border_between_masks(mask1, mask2)`:
dilate both masks with the configured kernel, add them (uint8), and mark with
1 every pixel where the sum exceeds 1. -/
def calcBorder (C : Composer) (m1 m2 : Mat) : Mat :=
  fun y x =>
    if 1 < u8add (dilate C.kernel C.h C.w m1 y x) (dilate C.kernel C.h C.w m2 y x)
    then 1 else 0

/-- Lookup in the `_masks` dictionary. -/
def findEntry : List (ℕ × Entry) → ℕ → Option Entry
  | [], _ => none
  | (c, e) :: t, cls => if c = cls then some e else findEntry t cls

/-- Update of the `_masks` dictionary: Python dictionaries keep the original
position of an updated key and append a fresh key at the end. -/
def setEntry : List (ℕ × Entry) → ℕ → Entry → List (ℕ × Entry)
  | [], cls, e => [(cls, e)]
  | (c, e0) :: t, cls, e =>
    if c = cls then (c, e) :: t else (c, e0) :: setEntry t cls e

/-- Errors surfaced by the embedded operations. `invalidOffset` is the
spec-mandated rejection of out-of-bounds placements; `valueError` and
`typeError` represent the corresponding Python/numpy exceptions;
`stackError` represents a `np.stack` shape mismatch. -/
inductive Err where
  | invalidOffset
  | valueError
  | typeError
  | stackError
  deriving DecidableEq

/-- Placement of an `(mh, mw)` mask at offset `(r, c)` on a zero canvas:
the numpy slice assignment `target[r : r + mh, c : c + mw] = mask` into
`np.zeros_like(...)`. -/
def place (r c : ℕ) (m : Mat) (mh mw : ℕ) : Mat :=
  fun y x =>
    if r ≤ y ∧ y < r + mh ∧ c ≤ x ∧ x < c + mw then m (y - r) (x - c) else 0

/-- Replace the `_masks` dictionary of a composer, all other configuration
unchanged. -/
def Composer.setMasks (C : Composer) (ms : List (ℕ × Entry)) : Composer :=
  { C with masks := ms }

/-- Test `self._borders_as_class and cls in self._borders_between_classes`. -/
def borderEnabled (C : Composer) (cls : ℕ) : Bool :=
  C.bordersAsClass && C.betweenClasses.contains cls

/-- Bounds test for one `add_mask` contribution: an offset placement must lie
inside the canvas, and a full-canvas contribution (no offset) must have the
canvas shape. -/
def fitsB (C : Composer) (o : Option (ℤ × ℤ)) (mh mw : ℕ) : Bool :=
  match o with
  | some (r, c) =>
    decide (0 ≤ r) && decide (0 ≤ c) &&
    decide (r.toNat + mh ≤ C.h) && decide (c.toNat + mw ≤ C.w)
  | none => decide (mh = C.h) && decide (mw = C.w)

/-- The method `MasksComposer.add_mask(mask, cls, offset)`.

Modelled from the spec: the leading bounds check returning
`Err.invalidOffset` — the source performs no bounds check and the spec
declares out-of-bounds offsets undefined behaviour there, mandating the
check in a faithful reimplementation (a shape-mismatched offset-free
contribution is a numpy broadcast `valueError`). The in-bounds behaviour is
translated from the source:
* lazily allocate a zero canvas for a fresh class;
* for a border-enabled class, place the contribution (or take it whole),
  fetch the previously accumulated borders only when an offset was supplied
  and the stored entry is already a `{'mask','borders'}` record, compute the
  border between the accumulated mask and the contribution, add the previous
  borders when fetched, add the raw contribution into the accumulator, and
  store both clipped to `{0, 1}`;
* otherwise add the contribution in place (a record entry would make the
  source's `+=` a `TypeError`). -/
def addMask (C : Composer) (m : Mat) (mh mw : ℕ) (cls : ℕ)
    (o : Option (ℤ × ℤ)) : Except Err Composer :=
  if fitsB C o mh mw then
    let entry := (findEntry C.masks cls).getD (.plain zeroMat)
    if borderEnabled C cls then
      let prevB : Option Mat :=
        match o, entry with
        | some _, .withB _ b => some b
        | _, _ => none
      let target : Mat :=
        match o with
        | some (r, c) => place r.toNat c.toNat m mh mw
        | none => m
      let origin : Mat :=
        match entry with
        | .plain m0 => m0
        | .withB m0 _ => m0
      let newB : Mat :=
        match prevB with
        | some pb => fun y x => u8add (calcBorder C origin target y x) (pb y x)
        | none => calcBorder C origin target
      .ok (C.setMasks (setEntry C.masks cls (.withB
        (fun y x => clip01 (u8add (origin y x) (target y x)))
        (fun y x => clip01 (newB y x)))))
    else
      match entry with
      | .withB _ _ => .error .typeError
      | .plain m0 =>
        match o with
        | some (r, c) =>
          .ok (C.setMasks (setEntry C.masks cls (.plain (fun y x =>
            if r.toNat ≤ y ∧ y < r.toNat + mh ∧ c.toNat ≤ x ∧ x < c.toNat + mw
            then u8add (m0 y x) (m (y - r.toNat) (x - c.toNat))
            else m0 y x))))
        | none =>
          .ok (C.setMasks
            (setEntry C.masks cls (.plain (fun y x => u8add (m0 y x) (m y x)))))
  else .error (match o with | some _ => .invalidOffset | none => .valueError)

/-- An n-dimensional numpy array over element type `α`: explicit shape plus
row-major flat data. -/
structure NdA (α : Type) where
  shape : List ℕ
  data : List α
  deriving DecidableEq

/-- Integer (`uint8`) n-dimensional array. -/
abbrev Nd := NdA ℕ

/-- View of an `(h, w)` matrix as a 2-D array. -/
def toNd (h w : ℕ) (m : Mat) : Nd :=
  ⟨[h, w], (List.range (h * w)).map fun i => m (i / w) (i % w)⟩

/-- The function `np.stack(arrs, axis)`: all inputs must share one shape and
the axis must be at most its length; the result inserts a new axis of size
`len(arrs)` at position `axis`. On the flat representation the data is
regrouped in blocks of `inner = prod (shape after axis)` elements taken from
the inputs in turn. `none` represents the `ValueError` numpy raises on a
shape mismatch (or on an empty input tuple). -/
def npStack (axis : ℕ) (arrs : List Nd) : Option Nd :=
  match arrs with
  | [] => none
  | x :: rest =>
    if rest.all (fun a => a.shape == x.shape) && decide (axis ≤ x.shape.length)
    then
      let outer := (x.shape.take axis).prod
      let inner := (x.shape.drop axis).prod
      some ⟨x.shape.take axis ++ (rest.length + 1) :: x.shape.drop axis,
        (List.range outer).flatMap fun o =>
          (x :: rest).flatMap fun a => (a.data.drop (o * inner)).take inner⟩
    else none

/-- One iteration of the loop in `MasksComposer.compose()`. -/
def composeStep (C : Composer) (res : Option Nd) (e : Entry) :
    Except Err (Option Nd) :=
  match res, e with
  | none, .plain m => .ok (some (toNd C.h C.w m))
  | none, .withB m b =>
    match npStack 2 [toNd C.h C.w m, toNd C.h C.w b] with
    | some r => .ok (some r)
    | none => .error .stackError
  | some r, .plain m =>
    match npStack 0 [r, toNd C.h C.w m] with
    | some r2 => .ok (some r2)
    | none => .error .stackError
  | some r, .withB m b =>
    match npStack 2 [r, toNd C.h C.w m, toNd C.h C.w b] with
    | some r2 => .ok (some r2)
    | none => .error .stackError

/-- The method `MasksComposer.compose()`: fold over the class dictionary in
insertion order, stacking a `{'mask','borders'}` record along axis 2 and a
plain entry along axis 0 onto the running result (`None` for an empty
dictionary). -/
def compose (C : Composer) : Except Err (Option Nd) :=
  C.masks.foldlM (fun res e => composeStep C res e.2) none

/-- Chained `add_mask` on an `Except`-wrapped composer state. -/
def addMaskE (e : Except Err Composer) (m : Mat) (mh mw cls : ℕ)
    (o : Option (ℤ × ℤ)) : Except Err Composer :=
  e.bind fun C => addMask C m mh mw cls o

/-- Observation of the stored border mask of a class at one pixel. -/
def borderAt (e : Except Err Composer) (cls y x : ℕ) : Option ℕ :=
  match e with
  | .ok C =>
    match findEntry C.masks cls with
    | some (.withB _ b) => some (b y x)
    | _ => none
  | .error _ => none

/-- Composition of an `Except`-wrapped composer state. -/
def composeE (e : Except Err Composer) : Except Err (Option Nd) :=
  e.bind compose

/-- A Supervisely bitmap annotation. The compressed payload is carried in
already-decoded form: `alpha` is the alpha plane of the PNG obtained by
base64-decoding and zlib-inflating `bitmap.data` (the external decode chain
is treated as given), and `originXY` is the stored `origin` pair `[x, y]`. -/
structure AnnBitmap where
  ah : ℕ
  aw : ℕ
  alpha : Mat
  originXY : ℕ × ℕ

/-- The `points` record of a Supervisely annotation object; each point is an
`(x, y)` pair. -/
structure AnnPoints where
  exterior : List (ℤ × ℤ)
  interior : List (ℤ × ℤ)

/-- One annotation object: an optional bitmap and the polygon points. -/
structure AnnObject where
  bitmap : Option AnnBitmap
  points : AnnPoints

/-- Result of decoding one annotation object. -/
structure ObjMask where
  mh : ℕ
  mw : ℕ
  mask : Mat
  origin : ℤ × ℤ

/-- Minimum of a list of integers, as `np.array(...).min(axis=0)` computes it
componentwise (the source raises on an empty list; callers guard). -/
def listMinZ : List ℤ → ℤ
  | [] => 0
  | x :: t => t.foldl min x

/-- Maximum of a list of integers. -/
def listMaxZ : List ℤ → ℤ
  | [] => 0
  | x :: t => t.foldl max x

/-- Test that `p` lies on the closed segment from `a` to `b` (collinear and
inside the bounding box). -/
def onSeg (a b p : ℤ × ℤ) : Bool :=
  decide ((b.1 - a.1) * (p.2 - a.2) = (b.2 - a.2) * (p.1 - a.1)) &&
  decide (min a.1 b.1 ≤ p.1) && decide (p.1 ≤ max a.1 b.1) &&
  decide (min a.2 b.2 ≤ p.2) && decide (p.2 ≤ max a.2 b.2)

/-- Test that the horizontal ray from `p` towards `+x` crosses the edge from
`a` to `b` (half-open rule on the `y` range, strict crossing on `x`; the
comparisons are the rational intersection test cleared of denominators). -/
def rayCrosses (a b p : ℤ × ℤ) : Bool :=
  if a.2 ≤ p.2 ∧ p.2 < b.2 then
    decide ((p.1 - a.1) * (b.2 - a.2) < (p.2 - a.2) * (b.1 - a.1))
  else if b.2 ≤ p.2 ∧ p.2 < a.2 then
    decide ((p.2 - a.2) * (b.1 - a.1) < (p.1 - a.1) * (b.2 - a.2))
  else false

/-- Membership of an integer point in a closed polygon: on an edge, or inside
by even-odd ray casting over the cyclic edge list. -/
def inPoly (pts : List (ℤ × ℤ)) (p : ℤ × ℤ) : Bool :=
  let edges := pts.zip (pts.rotate 1)
  edges.any (fun e => onSeg e.1 e.2 p) ||
  (edges.foldl (fun n e => if rayCrosses e.1 e.2 p then n + 1 else n) 0) % 2 == 1

/-- Modelled from the documented behaviour of the external call
`cv2.drawContours(canvas, [pts], -1, 1, cv2.FILLED)` on a zero `(h, w)`
canvas: every canvas pixel whose `(x, y)` position lies inside or on the
contour is painted with 1. -/
def drawContoursFilled (h w : ℕ) (pts : List (ℤ × ℤ)) : Mat :=
  fun y x =>
    if y < h ∧ x < w ∧ inPoly pts ((x : ℤ), (y : ℤ)) = true then 1 else 0

/-- Result of `object_to_mask`: the `(None, None)` pair for an object with
neither bitmap nor points, a decoded mask + origin, or a raised exception
(the source crashes computing the bounding box when only interior points are
present). -/
inductive DecodeRes where
  | noContribution
  | objMask (m : ObjMask)
  | decodeError

/-- The inner function `SuperviselyDataset._process_target.object_to_mask`:
* a bitmap object yields the alpha plane thresholded to `{0, 1}` and the
  origin `[x, y]` swapped to `(row, col)` (stored through `np.uint16`, hence
  the `% 65536`);
* otherwise, when there is any point, the exterior points give a bounding
  box; the mask is the polygon filled on a canvas of shape
  `(max_y - min_y, max_x - min_x)` after shifting the points by the minimum
  corner, and the origin is that corner reordered to `(row, col)`;
* with neither bitmap nor points, `(None, None)` is returned. -/
def objectToMask (o : AnnObject) : DecodeRes :=
  match o.bitmap with
  | some b =>
    .objMask ⟨b.ah, b.aw, (fun y x => if 0 < b.alpha y x then 1 else 0),
      ((b.originXY.2 % 65536 : ℕ), (b.originXY.1 % 65536 : ℕ))⟩
  | none =>
    if o.points.interior.length + o.points.exterior.length > 0 then
      match o.points.exterior with
      | [] => .decodeError
      | _ :: _ =>
        let xs := o.points.exterior.map Prod.fst
        let ys := o.points.exterior.map Prod.snd
        let ox := listMinZ xs
        let oy := listMinZ ys
        let sx := (listMaxZ xs - ox).toNat
        let sy := (listMaxZ ys - oy).toNat
        let shifted := o.points.exterior.map fun q => (q.1 - ox, q.2 - oy)
        .objMask ⟨sy, sx, drawContoursFilled sy sx shifted, (oy, ox)⟩
    else .noContribution

/-- One parsed annotation JSON document, as `_process_target` consumes it. -/
structure TargetJson where
  height : ℕ
  width : ℕ
  objects : List AnnObject

/-- The method `SuperviselyDataset._process_target(target)`: build a composer
over the frame shape, enable borders for class 0 when `use_border_as_class`
was called (kernel `np.ones((t, t))` for a configured thickness `t`, default
`np.ones((2, 2))`), then decode every object and feed it to
`add_mask(mask, 0, offset=origin)` unconditionally — an object decoded to
`(None, None)` makes that call raise (`None` is not an array), represented by
`Err.typeError` — and finally `compose()`. -/
def processTarget (useBorder : Bool) (thickness : Option ℕ) (t : TargetJson) :
    Except Err (Option Nd) := do
  let C0 : Composer := mkComposer t.height t.width
  let C1 := if useBorder then
      (match thickness with
       | none => C0.addBordersAsClass [0] (onesK 2 2)
       | some k => C0.addBordersAsClass [0] (onesK k k))
    else C0
  let Cf ← t.objects.foldlM (fun C obj =>
    match objectToMask obj with
    | .objMask m => addMask C m.mask m.mh m.mw 0 (some m.origin)
    | .noContribution => .error .typeError
    | .decodeError => .error .valueError) C1
  compose Cf

/-- Errors of the `EmptyClassesAdd` wrapper. `configError` is the constructor
`Exception`; `tooManyDims` and `tooManyChannels` are the two `RuntimeError`
checks of `__getitem__`, carrying exactly the data interpolated into their
messages (the first reports only the offending shape, the second reports the
shape and the configured class count); `indexError` is the `IndexError` from
`target_shape[1]` on a target of fewer than 2 dimensions; `channelIndexError`
is the numpy `IndexError` on `target[:, :, idx]` with `idx` out of range;
`broadcastError` is the numpy `ValueError` from assigning a 3-D source into
the 2-D slice. -/
inductive EErr where
  | configError (total idx : ℕ)
  | tooManyDims (shape : List ℕ)
  | tooManyChannels (shape : List ℕ) (total : ℕ)
  | indexError (shape : List ℕ)
  | channelIndexError (idx total : ℕ)
  | broadcastError (shape : List ℕ)
  deriving DecidableEq

/-- Configuration held by a constructed `EmptyClassesAdd`. -/
structure ECfg where
  total : ℕ
  existsIdx : ℕ
  deriving DecidableEq

/-- The constructor `EmptyClassesAdd(dataset, target_classes_num,
exists_class_idx)`: raises unless the class count is strictly greater than
the existing-class index. -/
def emptyClassesInit (total idx : ℕ) : Except EErr ECfg :=
  if total ≤ idx then .error (.configError total idx) else .ok ⟨total, idx⟩

/-- Conversion of one element to `uint8`, as numpy's cast into a
`np.zeros(..., dtype=np.uint8)` array performs it on nonnegative values:
truncation toward zero, then reduction modulo 256 (negative inputs are not
modelled; no modelled data path produces them). -/
def u8OfRat (q : ℚ) : ℕ := (q.num.toNat / q.den) % 256

/-- The flat data of the expanded target: for each of the `n` pixel positions
(row-major), `total` channels of which only channel `idx` receives the cast
source element, all others staying at the allocated zero. -/
def expandData (total idx n : ℕ) (src : List ℚ) : List ℕ :=
  (List.range n).flatMap fun i =>
    (List.range total).map fun k => if k = idx then u8OfRat (src.getD i 0) else 0

/-- The target computation of `EmptyClassesAdd.__getitem__`, in source order:
* reject a target of more than 3 dimensions (`RuntimeError`, shape only in
  the message);
* reject a 3-D target whose channel count exceeds the configured class count
  (`RuntimeError`, shape and class count in the message);
* read `target_shape[0]` and `target_shape[1]` (an `IndexError` on targets of
  fewer than 2 dimensions);
* allocate `np.zeros((s0, s1, total), dtype=np.uint8)` and assign the wrapped
  target into channel `exists_class_idx`: numpy resolves the channel index
  (an `IndexError` out of range) and then broadcasts the source onto the 2-D
  slice, which fails for any remaining 3-D source, so that only 2-D targets
  are written — each element cast to `uint8`. -/
def egetTarget (cfg : ECfg) (t : NdA ℚ) : Except EErr Nd :=
  let sh := t.shape
  if 3 < sh.length then .error (.tooManyDims sh)
  else if sh.length = 3 ∧ cfg.total < sh.getD 2 0 then
    .error (.tooManyChannels sh cfg.total)
  else if sh.length < 2 then .error (.indexError sh)
  else if cfg.total ≤ cfg.existsIdx then
    .error (.channelIndexError cfg.existsIdx cfg.total)
  else if sh.length ≠ 2 then .error (.broadcastError sh)
  else
    .ok ⟨[sh.getD 0 0, sh.getD 1 0, cfg.total],
      expandData cfg.total cfg.existsIdx (sh.getD 0 0 * sh.getD 1 0) t.data⟩

/-- The method `EmptyClassesAdd.__getitem__`: fetch `{data, target}` from the
wrapped dataset (here given as the pair directly), expand the target, and
return the untouched `data` with the expanded target. -/
def emptyClassesGet {α : Type} (cfg : ECfg) (d : α) (t : NdA ℚ) :
    Except EErr (α × Nd) :=
  (egetTarget cfg t).map fun r => (d, r)

/-- Element read of a 3-D array through its own shape (row-major strides). -/
def ndGet3 (r : Nd) (y x k : ℕ) : ℕ :=
  r.data.getD ((y * r.shape.getD 1 0 + x) * r.shape.getD 2 0 + k) 0

/-- Element read of a 2-D rational array of row length `s1`. -/
def ndGet2 (t : NdA ℚ) (s1 y x : ℕ) : ℚ :=
  t.data.getD (y * s1 + x) 0

/-- The normalization `mask / 255` applied by `PixartDataset.__getitem__` to
its target pixels. -/
def pixartNormalize (v : ℕ) : ℚ := (v : ℚ) / 255

/-- Contribution of an `add_mask` call after optional offset placement: the
array actually merged into the class accumulator. -/
def placed (o : Option (ℤ × ℤ)) (m : Mat) (mh mw : ℕ) : Mat :=
  match o with
  | some rc => place rc.1.toNat rc.2.toNat m mh mw
  | none => m

/-! Concrete example data used by the individual claims. -/

/-- Single pixel at `(0, 0)` on a `1 × 5` canvas. -/
def exm1 : Mat := fun y x => if y = 0 ∧ x = 0 then 1 else 0

/-- Single pixel at `(0, 1)` on a `1 × 5` canvas. -/
def exm2 : Mat := fun y x => if y = 0 ∧ x = 1 then 1 else 0

/-- Single pixel at `(0, 4)` on a `1 × 5` canvas. -/
def exm3 : Mat := fun y x => if y = 0 ∧ x = 4 then 1 else 0

/-- A `1 × 5` composer with borders enabled for class 0 and the default
`2 × 2` kernel. -/
def exC : Composer := (mkComposer 1 5).addBordersAsClass [0] (onesK 2 2)

/-- State after adding `exm1` and then `exm2` (the latter at offset
`(0, 0)`) for the border-enabled class 0: the stored border mask records the
touching pixel at `(0, 1)`. -/
def exSt2 : Except Err Composer :=
  addMaskE (addMask exC exm1 1 5 0 none) exm2 1 5 0 (some (0, 0))

/-- State after a third, offset-free `add_mask` of the distant `exm3`. -/
def exSt3 : Except Err Composer := addMaskE exSt2 exm3 1 5 0 none

/-- Single pixel at `(0, 1)` on a `2 × 3` canvas. -/
def exmA : Mat := fun y x => if y = 0 ∧ x = 1 then 1 else 0

/-- Single pixel at `(1, 2)` on a `2 × 3` canvas. -/
def exmB : Mat := fun y x => if y = 1 ∧ x = 2 then 1 else 0

/-- Result of composing a `2 × 3` composer holding two border-less classes
0 and 1, added in that order. -/
def exCompose : Except Err (Option Nd) :=
  composeE (addMaskE (addMask (mkComposer 2 3) exmA 2 3 0 none) exmB 2 3 1 none)

/-- What stacking the two resulting class canvases along a new trailing axis
would produce. -/
def exTrail : Option Nd :=
  npStack 2 [toNd 2 3 (fun y x => u8add (zeroMat y x) (exmA y x)),
             toNd 2 3 (fun y x => u8add (zeroMat y x) (exmB y x))]

/-- An annotation object with neither a bitmap nor any points. -/
def exEmptyObj : AnnObject := ⟨none, ⟨[], []⟩⟩

/-- An annotation document whose single object is empty. -/
def exEmptyTarget : TargetJson := ⟨2, 2, [exEmptyObj]⟩

/-- The square polygon `[(0,0),(0,10),(10,10),(10,0)]` of the spec. -/
def exSquare : List (ℤ × ℤ) := [(0, 0), (0, 10), (10, 10), (10, 0)]

/-- A `1 × 2` integer-valued rational target. -/
def exT6 : NdA ℚ := ⟨[1, 2], [1, 0]⟩

/-- A `1 × 1` fractional target holding the value `1 / 2`. -/
def exT6f : NdA ℚ := ⟨[1, 1], [(1 : ℚ) / 2]⟩


/-- A 3-D target of shape `(1, 1, 2)`: 2 channels, fewer than 3 classes. -/
def exT9 : NdA ℚ := ⟨[1, 1, 2], [0, 0]⟩

/-- A `1 × 1` target holding the Pixart-normalized pixel `128 / 255`. -/
def exT10 : NdA ℚ := ⟨[1, 1], [(128 : ℚ) / 255]⟩

/-! Supporting lemmas. -/

theorem foldlMax_le (l : List ℕ) : ∀ b n : ℕ, b ≤ n → (∀ a ∈ l, a ≤ n) →
    l.foldl max b ≤ n := by
  induction l with
  | nil => intro b n hb _; simpa using hb
  | cons x t ih =>
    intro b n hb hx
    simp only [List.foldl_cons]
    exact ih _ n (max_le hb (hx x (List.mem_cons_self _ _)))
      fun a ha => hx a (List.mem_cons_of_mem _ ha)

theorem getPad_le {m : Mat} {n : ℕ} (hm : ∀ y x, m y x ≤ n) (h w : ℕ)
    (y x : ℤ) : getPad h w m y x ≤ n := by
  unfold getPad
  split
  · exact hm _ _
  · exact Nat.zero_le n

theorem dilate_le_one {m : Mat} (hm : ∀ y x, m y x ≤ 1) (K : List (List ℕ))
    (h w y x : ℕ) : dilate K h w m y x ≤ 1 := by
  unfold dilate
  refine foldlMax_le _ 0 1 (Nat.zero_le 1) ?_
  intro a ha
  simp only [List.mem_flatMap, List.mem_range, List.mem_filterMap] at ha
  obtain ⟨i, _, j, _, hj⟩ := ha
  split at hj
  · cases hj
    exact getPad_le hm h w _ _
  · cases hj

theorem dilate_zeroMat (K : List (List ℕ)) (h w y x : ℕ) :
    dilate K h w zeroMat y x = 0 := by
  refine Nat.le_zero.mp ?_
  unfold dilate
  refine foldlMax_le _ 0 0 le_rfl ?_
  intro a ha
  simp only [List.mem_flatMap, List.mem_range, List.mem_filterMap] at ha
  obtain ⟨i, _, j, _, hj⟩ := ha
  split at hj
  · cases hj
    exact getPad_le (fun _ _ => le_rfl) h w _ _
  · cases hj

theorem u8add_of_lt {a b : ℕ} (h : a + b < 256) : u8add a b = a + b :=
  Nat.mod_eq_of_lt h

theorem clip01_le_one (v : ℕ) : clip01 v ≤ 1 := min_le_right _ _

theorem clip01_of_le {v : ℕ} (h : v ≤ 1) : clip01 v = v := min_eq_left h

theorem placed_le_one {m : Mat} (hm : ∀ y x, m y x ≤ 1) (o : Option (ℤ × ℤ))
    (mh mw : ℕ) : ∀ y x, placed o m mh mw y x ≤ 1 := by
  intro y x
  rcases o with _ | rc
  · exact hm y x
  · show place rc.1.toNat rc.2.toNat m mh mw y x ≤ 1
    unfold place
    split
    · exact hm _ _
    · exact Nat.zero_le 1

theorem findEntry_setEntry_self (l : List (ℕ × Entry)) (cls : ℕ) (e : Entry) :
    findEntry (setEntry l cls e) cls = some e := by
  induction l with
  | nil => simp [setEntry, findEntry]
  | cons p t ih =>
    obtain ⟨c, e0⟩ := p
    by_cases hc : c = cls
    · simp [setEntry, findEntry, hc]
    · simp [setEntry, findEntry, hc, ih]

theorem fitsB_some_iff (C : Composer) (r c : ℤ) (mh mw : ℕ) :
    fitsB C (some (r, c)) mh mw = true ↔
      0 ≤ r ∧ 0 ≤ c ∧ r.toNat + mh ≤ C.h ∧ c.toNat + mw ≤ C.w := by
  simp [fitsB, Bool.and_eq_true, decide_eq_true_eq, and_assoc]

theorem fitsB_none_iff (C : Composer) (mh mw : ℕ) :
    fitsB C none mh mw = true ↔ mh = C.h ∧ mw = C.w := by
  simp [fitsB, Bool.and_eq_true, decide_eq_true_eq]

/-! Step lemmas describing one `add_mask` call in each source branch. -/

theorem addMask_border_plain (C : Composer) (m : Mat) (mh mw cls : ℕ)
    (o : Option (ℤ × ℤ)) (m0 : Mat)
    (hb : borderEnabled C cls = true)
    (he : (findEntry C.masks cls).getD (.plain zeroMat) = .plain m0)
    (hf : fitsB C o mh mw = true) :
    addMask C m mh mw cls o = .ok (C.setMasks (setEntry C.masks cls (.withB
      (fun y x => clip01 (u8add (m0 y x) (placed o m mh mw y x)))
      (fun y x => clip01 (calcBorder C m0 (placed o m mh mw) y x))))) := by
  rcases o with _ | ⟨r, c⟩ <;>
    simp only [addMask, hf, if_true, he, hb, placed, place]

theorem addMask_border_withB_offset (C : Composer) (m : Mat) (mh mw cls : ℕ)
    (rc : ℤ × ℤ) (M B : Mat)
    (hb : borderEnabled C cls = true)
    (he : findEntry C.masks cls = some (.withB M B))
    (hf : fitsB C (some rc) mh mw = true) :
    addMask C m mh mw cls (some rc) =
      .ok (C.setMasks (setEntry C.masks cls (.withB
        (fun y x => clip01 (u8add (M y x)
          (place rc.1.toNat rc.2.toNat m mh mw y x)))
        (fun y x => clip01 (u8add
          (calcBorder C M (place rc.1.toNat rc.2.toNat m mh mw) y x)
          (B y x)))))) := by
  obtain ⟨r, c⟩ := rc
  simp only [addMask, hf, if_true, he, hb, Option.getD_some]

theorem addMask_border_withB_none (C : Composer) (m : Mat) (mh mw cls : ℕ)
    (M B : Mat)
    (hb : borderEnabled C cls = true)
    (he : findEntry C.masks cls = some (.withB M B))
    (hf : fitsB C none mh mw = true) :
    addMask C m mh mw cls none =
      .ok (C.setMasks (setEntry C.masks cls (.withB
        (fun y x => clip01 (u8add (M y x) (m y x)))
        (fun y x => clip01 (calcBorder C M m y x))))) := by
  simp only [addMask, hf, if_true, he, hb, Option.getD_some]

theorem addMask_plain_offset (C : Composer) (m : Mat) (mh mw cls : ℕ)
    (rc : ℤ × ℤ) (m0 : Mat)
    (hb : borderEnabled C cls = false)
    (he : (findEntry C.masks cls).getD (.plain zeroMat) = .plain m0)
    (hf : fitsB C (some rc) mh mw = true) :
    addMask C m mh mw cls (some rc) =
      .ok (C.setMasks (setEntry C.masks cls (.plain (fun y x =>
        if rc.1.toNat ≤ y ∧ y < rc.1.toNat + mh ∧
           rc.2.toNat ≤ x ∧ x < rc.2.toNat + mw
        then u8add (m0 y x) (m (y - rc.1.toNat) (x - rc.2.toNat))
        else m0 y x)))) := by
  obtain ⟨r, c⟩ := rc
  simp only [addMask, hf, if_true, he, hb, Bool.false_eq_true, if_false]

theorem addMask_plain_none (C : Composer) (m : Mat) (mh mw cls : ℕ) (m0 : Mat)
    (hb : borderEnabled C cls = false)
    (he : (findEntry C.masks cls).getD (.plain zeroMat) = .plain m0)
    (hf : fitsB C none mh mw = true) :
    addMask C m mh mw cls none =
      .ok (C.setMasks (setEntry C.masks cls
        (.plain (fun y x => u8add (m0 y x) (m y x))))) := by
  simp only [addMask, hf, if_true, he, hb, Bool.false_eq_true, if_false]

theorem addMask_oob (C : Composer) (m : Mat) (mh mw cls : ℕ) (rc : ℤ × ℤ)
    (hf : fitsB C (some rc) mh mw = false) :
    addMask C m mh mw cls (some rc) = .error .invalidOffset := by
  simp only [addMask, hf, Bool.false_eq_true, if_false]

theorem calcBorder_le_one (C : Composer) (m1 m2 : Mat) (y x : ℕ) :
    calcBorder C m1 m2 y x ≤ 1 := by
  unfold calcBorder
  split <;> omega

theorem fun_clip_u8add_zero_placed {m : Mat} (hm : ∀ y x, m y x ≤ 1)
    (o : Option (ℤ × ℤ)) (mh mw : ℕ) :
    (fun y x => clip01 (u8add (zeroMat y x) (placed o m mh mw y x))) =
      placed o m mh mw := by
  funext y x
  have hp := placed_le_one hm o mh mw y x
  show clip01 (u8add 0 (placed o m mh mw y x)) = _
  rw [u8add_of_lt (by omega), Nat.zero_add]
  exact clip01_of_le hp

theorem fun_clip_calcBorder_zeroMat {m : Mat} (hm : ∀ y x, m y x ≤ 1)
    (C : Composer) : (fun y x => clip01 (calcBorder C zeroMat m y x)) =
      zeroMat := by
  funext y x
  show clip01 (calcBorder C zeroMat m y x) = 0
  unfold calcBorder
  have hd := dilate_le_one hm C.kernel C.h C.w y x
  rw [dilate_zeroMat, u8add_of_lt (by omega), if_neg (by omega)]
  rfl

theorem calcBorder_eq_indicator (C : Composer) {m1 m2 : Mat}
    (h1 : ∀ y x, m1 y x ≤ 1) (h2 : ∀ y x, m2 y x ≤ 1) (y x : ℕ) :
    calcBorder C m1 m2 y x =
      if 0 < dilate C.kernel C.h C.w m1 y x ∧
         0 < dilate C.kernel C.h C.w m2 y x then 1 else 0 := by
  unfold calcBorder
  have hd1 := dilate_le_one h1 C.kernel C.h C.w y x
  have hd2 := dilate_le_one h2 C.kernel C.h C.w y x
  rw [u8add_of_lt (by omega)]
  by_cases hc : 0 < dilate C.kernel C.h C.w m1 y x ∧
      0 < dilate C.kernel C.h C.w m2 y x
  · rw [if_pos hc, if_pos (by omega)]
  · rw [if_neg hc, if_neg (by omega)]

/-- Claim C1: for a border-enabled class of the mask composer, after two
masks with values in `{0, 1}` are added in sequence (each optionally at an
in-bounds offset), the stored border mask is exactly the indicator of the
pixels where the dilations of the two placed contributions are both
non-zero; in particular it is all-zero whenever the dilated footprints are
disjoint. -/
theorem c1_border_disjoint_and_intersection
    (C : Composer) (cls : ℕ) (m1 m2 : Mat) (mh1 mw1 mh2 mw2 : ℕ)
    (o1 o2 : Option (ℤ × ℤ))
    (hb : borderEnabled C cls = true)
    (hfresh : findEntry C.masks cls = none)
    (hm1 : ∀ y x, m1 y x ≤ 1) (hm2 : ∀ y x, m2 y x ≤ 1)
    (hf1 : fitsB C o1 mh1 mw1 = true) (hf2 : fitsB C o2 mh2 mw2 = true) :
    ∃ S1 S2 M B,
      addMask C m1 mh1 mw1 cls o1 = .ok S1 ∧
      addMask S1 m2 mh2 mw2 cls o2 = .ok S2 ∧
      findEntry S2.masks cls = some (.withB M B) ∧
      (∀ y x, B y x =
        if 0 < dilate C.kernel C.h C.w (placed o1 m1 mh1 mw1) y x ∧
           0 < dilate C.kernel C.h C.w (placed o2 m2 mh2 mw2) y x
        then 1 else 0) ∧
      ((∀ y x, dilate C.kernel C.h C.w (placed o1 m1 mh1 mw1) y x = 0 ∨
               dilate C.kernel C.h C.w (placed o2 m2 mh2 mw2) y x = 0) →
        ∀ y x, B y x = 0) := by
  have he0 : (findEntry C.masks cls).getD (.plain zeroMat) = .plain zeroMat := by
    rw [hfresh]; rfl
  have h1 := addMask_border_plain C m1 mh1 mw1 cls o1 zeroMat hb he0 hf1
  rw [fun_clip_u8add_zero_placed hm1,
    fun_clip_calcBorder_zeroMat (placed_le_one hm1 o1 mh1 mw1) C] at h1
  have hP1 := placed_le_one hm1 o1 mh1 mw1
  have hP2 := placed_le_one hm2 o2 mh2 mw2
  have hfind1 : findEntry (C.setMasks (setEntry C.masks cls
      (.withB (placed o1 m1 mh1 mw1) zeroMat))).masks cls =
      some (.withB (placed o1 m1 mh1 mw1) zeroMat) :=
    findEntry_setEntry_self _ _ _
  have hchar : ∀ y x,
      clip01 (calcBorder C (placed o1 m1 mh1 mw1) (placed o2 m2 mh2 mw2) y x) =
      if 0 < dilate C.kernel C.h C.w (placed o1 m1 mh1 mw1) y x ∧
         0 < dilate C.kernel C.h C.w (placed o2 m2 mh2 mw2) y x
      then 1 else 0 := by
    intro y x
    rw [clip01_of_le (calcBorder_le_one _ _ _ _ _),
      calcBorder_eq_indicator C hP1 hP2]
  rcases o2 with _ | rc
  · have h2 := addMask_border_withB_none
      (C.setMasks (setEntry C.masks cls (.withB (placed o1 m1 mh1 mw1) zeroMat)))
      m2 mh2 mw2 cls (placed o1 m1 mh1 mw1) zeroMat hb hfind1 hf2
    refine ⟨_, _, _, _, h1, h2, findEntry_setEntry_self _ _ _, ?_, ?_⟩
    · intro y x
      exact hchar y x
    · intro hdisj y x
      have hz := hchar y x
      rw [if_neg] at hz
      · exact hz
      · intro hc
        rcases hdisj y x with h0 | h0 <;> omega
  · have h2 := addMask_border_withB_offset
      (C.setMasks (setEntry C.masks cls (.withB (placed o1 m1 mh1 mw1) zeroMat)))
      m2 mh2 mw2 cls rc (placed o1 m1 mh1 mw1) zeroMat hb hfind1 hf2
    have hB2 : ∀ y x,
        clip01 (u8add (calcBorder C (placed o1 m1 mh1 mw1)
          (place rc.1.toNat rc.2.toNat m2 mh2 mw2) y x) (zeroMat y x)) =
        if 0 < dilate C.kernel C.h C.w (placed o1 m1 mh1 mw1) y x ∧
           0 < dilate C.kernel C.h C.w
             (placed (some rc) m2 mh2 mw2) y x then 1 else 0 := by
      intro y x
      have hc1 := calcBorder_le_one C (placed o1 m1 mh1 mw1)
        (place rc.1.toNat rc.2.toNat m2 mh2 mw2) y x
      show clip01 (u8add _ 0) = _
      rw [u8add_of_lt (by omega), Nat.add_zero]
      rw [clip01_of_le hc1]
      exact calcBorder_eq_indicator C hP1 hP2 y x
    refine ⟨_, _, _, _, h1, h2, findEntry_setEntry_self _ _ _, ?_, ?_⟩
    · intro y x
      exact hB2 y x
    · intro hdisj y x
      have hz := hB2 y x
      rw [if_neg] at hz
      · exact hz
      · intro hc
        rcases hdisj y x with h0 | h0 <;> omega

/-- Witness for C1: the concrete `1 × 5` border-enabled composer receiving
`exm1` and then `exm2` at offset `(0, 0)`. -/
theorem c1_border_disjoint_and_intersection_witness :
    ∃ S1 S2 M B,
      addMask exC exm1 1 5 0 none = .ok S1 ∧
      addMask S1 exm2 1 5 0 (some (0, 0)) = .ok S2 ∧
      findEntry S2.masks 0 = some (.withB M B) ∧
      (∀ y x, B y x =
        if 0 < dilate exC.kernel exC.h exC.w (placed none exm1 1 5) y x ∧
           0 < dilate exC.kernel exC.h exC.w (placed (some (0, 0)) exm2 1 5) y x
        then 1 else 0) ∧
      ((∀ y x, dilate exC.kernel exC.h exC.w (placed none exm1 1 5) y x = 0 ∨
          dilate exC.kernel exC.h exC.w (placed (some (0, 0)) exm2 1 5) y x = 0) →
        ∀ y x, B y x = 0) :=
  c1_border_disjoint_and_intersection exC 0 exm1 exm2 1 5 1 5 none (some (0, 0))
    (by decide) rfl
    (fun y x => by unfold exm1; split <;> omega)
    (fun y x => by unfold exm2; split <;> omega)
    (by decide) (by decide)

/-- Claim C2: an in-bounds `add_mask(mask, cls, offset=(r, c))` adds pixel
`mask[i, j]` exactly at canvas position `[r + i, c + j]` (uint8 addition)
and leaves every other canvas pixel unchanged; any offset whose placement
exceeds the canvas is rejected with `invalidOffset` and changes nothing. -/
theorem c2_offset_placement_and_bounds :
    (∀ (C : Composer) (m : Mat) (mh mw cls : ℕ) (m0 : Mat) (r c : ℕ),
      borderEnabled C cls = false →
      (findEntry C.masks cls).getD (.plain zeroMat) = .plain m0 →
      r + mh ≤ C.h → c + mw ≤ C.w →
      ∃ m', addMask C m mh mw cls (some ((r : ℤ), (c : ℤ))) =
          .ok (C.setMasks (setEntry C.masks cls (.plain m'))) ∧
        (∀ i j, i < mh → j < mw →
          m' (r + i) (c + j) = u8add (m0 (r + i) (c + j)) (m i j)) ∧
        (∀ y x, ¬(r ≤ y ∧ y < r + mh ∧ c ≤ x ∧ x < c + mw) →
          m' y x = m0 y x)) ∧
    (∀ (C : Composer) (m : Mat) (mh mw cls : ℕ) (ro co : ℤ),
      ¬(0 ≤ ro ∧ 0 ≤ co ∧ ro.toNat + mh ≤ C.h ∧ co.toNat + mw ≤ C.w) →
      addMask C m mh mw cls (some (ro, co)) = .error .invalidOffset) := by
  constructor
  · intro C m mh mw cls m0 r c hb he hr hc
    have hf : fitsB C (some ((r : ℤ), (c : ℤ))) mh mw = true := by
      rw [fitsB_some_iff]
      refine ⟨Int.natCast_nonneg r, Int.natCast_nonneg c, ?_, ?_⟩
      · rw [Int.toNat_natCast]; exact hr
      · rw [Int.toNat_natCast]; exact hc
    have h := addMask_plain_offset C m mh mw cls ((r : ℤ), (c : ℤ)) m0 hb he hf
    simp only [Int.toNat_natCast] at h
    refine ⟨_, h, ?_, ?_⟩
    · intro i j hi hj
      show (if r ≤ r + i ∧ r + i < r + mh ∧ c ≤ c + j ∧ c + j < c + mw
        then u8add (m0 (r + i) (c + j)) (m (r + i - r) (c + j - c))
        else m0 (r + i) (c + j)) = u8add (m0 (r + i) (c + j)) (m i j)
      rw [if_pos ⟨by omega, by omega, by omega, by omega⟩,
        Nat.add_sub_cancel_left, Nat.add_sub_cancel_left]
    · intro y x hout
      show (if r ≤ y ∧ y < r + mh ∧ c ≤ x ∧ x < c + mw
        then u8add (m0 y x) (m (y - r) (x - c)) else m0 y x) = m0 y x
      rw [if_neg hout]
  · intro C m mh mw cls ro co hno
    apply addMask_oob
    cases hfb : fitsB C (some (ro, co)) mh mw
    · rfl
    · exact absurd ((fitsB_some_iff C ro co mh mw).mp hfb) hno

/-- Witness for C2: placing a `1 × 2` mask at offset `(1, 1)` on an empty
`2 × 3` composer, and rejecting a `2 × 2` mask at offset `(1, 2)` there. -/
theorem c2_offset_placement_and_bounds_witness :
    (∃ m', addMask (mkComposer 2 3) exmA 1 2 0 (some ((1 : ℤ), (1 : ℤ))) =
        .ok ((mkComposer 2 3).setMasks
          (setEntry (mkComposer 2 3).masks 0 (.plain m'))) ∧
      (∀ i j, i < 1 → j < 2 →
        m' (1 + i) (1 + j) = u8add (zeroMat (1 + i) (1 + j)) (exmA i j)) ∧
      (∀ y x, ¬(1 ≤ y ∧ y < 1 + 1 ∧ 1 ≤ x ∧ x < 1 + 2) →
        m' y x = zeroMat y x)) ∧
    addMask (mkComposer 2 3) exmA 2 2 0 (some (1, 2)) =
      .error .invalidOffset :=
  ⟨c2_offset_placement_and_bounds.1 (mkComposer 2 3) exmA 1 2 0 zeroMat 1 1
      rfl rfl (by decide) (by decide),
    c2_offset_placement_and_bounds.2 (mkComposer 2 3) exmA 2 2 0 1 2
      (by decide)⟩

/-- Counterexample to C3 as stated: on the `1 × 5` border-enabled composer,
after `add_mask(exm1)` and `add_mask(exm2, offset=(0, 0))` the stored border
mask holds 1 at pixel `(0, 1)`, but a third `add_mask(exm3)` without an
offset — whose own contribution touches nothing — leaves the stored border
mask all-zero at that pixel: earlier border pixels are not preserved by an
offset-free call. -/
theorem c3_borders_dropped_counterexample :
    borderAt exSt2 0 0 1 = some 1 ∧ borderAt exSt3 0 0 1 = some 0 := by
  constructor <;> decide

/-- Claim C3 (amended): for a border-enabled class, a later `add_mask` call
that supplies an offset accumulates borders additively (then clips), so
border pixels already at 1 are preserved; a later call without an offset
recomputes the border mask from the current pair only, discarding previously
accumulated border pixels; and after every accepted `add_mask` call both the
stored class mask and the stored border mask have all values in `{0, 1}`. -/
theorem c3_border_accumulation_amended :
    (∀ (C : Composer) (m : Mat) (mh mw cls : ℕ) (rc : ℤ × ℤ) (M B : Mat),
      borderEnabled C cls = true →
      findEntry C.masks cls = some (.withB M B) →
      fitsB C (some rc) mh mw = true →
      (∀ y x, B y x ≤ 1) →
      ∃ M' B', addMask C m mh mw cls (some rc) =
          .ok (C.setMasks (setEntry C.masks cls (.withB M' B'))) ∧
        (∀ y x, B' y x = clip01
          (calcBorder C M (place rc.1.toNat rc.2.toNat m mh mw) y x + B y x)) ∧
        (∀ y x, B y x = 1 → B' y x = 1)) ∧
    (∀ (C : Composer) (m : Mat) (mh mw cls : ℕ) (M B : Mat),
      borderEnabled C cls = true →
      findEntry C.masks cls = some (.withB M B) →
      fitsB C none mh mw = true →
      ∃ M' B', addMask C m mh mw cls none =
          .ok (C.setMasks (setEntry C.masks cls (.withB M' B'))) ∧
        (∀ y x, B' y x = clip01 (calcBorder C M m y x))) ∧
    (∀ (C : Composer) (m : Mat) (mh mw cls : ℕ) (o : Option (ℤ × ℤ)),
      borderEnabled C cls = true →
      fitsB C o mh mw = true →
      ∃ S M' B', addMask C m mh mw cls o = .ok S ∧
        findEntry S.masks cls = some (.withB M' B') ∧
        ∀ y x, M' y x ≤ 1 ∧ B' y x ≤ 1) := by
  refine ⟨?_, ?_, ?_⟩
  · intro C m mh mw cls rc M B hb he hf hB
    have h := addMask_border_withB_offset C m mh mw cls rc M B hb he hf
    refine ⟨_, _, h, ?_, ?_⟩
    · intro y x
      have hc := calcBorder_le_one C M (place rc.1.toNat rc.2.toNat m mh mw) y x
      have hb1 := hB y x
      show clip01 (u8add
        (calcBorder C M (place rc.1.toNat rc.2.toNat m mh mw) y x) (B y x)) = _
      rw [u8add_of_lt (by omega)]
    · intro y x h1
      have hc := calcBorder_le_one C M (place rc.1.toNat rc.2.toNat m mh mw) y x
      show clip01 (u8add
        (calcBorder C M (place rc.1.toNat rc.2.toNat m mh mw) y x) (B y x)) = 1
      rw [h1, u8add_of_lt (by omega)]
      unfold clip01
      omega
  · intro C m mh mw cls M B hb he hf
    exact ⟨_, _, addMask_border_withB_none C m mh mw cls M B hb he hf,
      fun y x => rfl⟩
  · intro C m mh mw cls o hb hf
    cases hE : (findEntry C.masks cls).getD (.plain zeroMat) with
    | plain m0 =>
      exact ⟨_, _, _, addMask_border_plain C m mh mw cls o m0 hb hE hf,
        findEntry_setEntry_self _ _ _,
        fun y x => ⟨clip01_le_one _, clip01_le_one _⟩⟩
    | withB M B =>
      have he : findEntry C.masks cls = some (.withB M B) := by
        cases hF : findEntry C.masks cls with
        | none => rw [hF] at hE; exact absurd hE (by simp)
        | some e =>
          rw [hF, Option.getD_some] at hE
          rw [hE]
      rcases o with _ | rc
      · exact ⟨_, _, _, addMask_border_withB_none C m mh mw cls M B hb he hf,
          findEntry_setEntry_self _ _ _,
          fun y x => ⟨clip01_le_one _, clip01_le_one _⟩⟩
      · exact ⟨_, _, _, addMask_border_withB_offset C m mh mw cls rc M B hb he hf,
          findEntry_setEntry_self _ _ _,
          fun y x => ⟨clip01_le_one _, clip01_le_one _⟩⟩

/-- A `1 × 5` border-enabled composer already holding a
`{'mask','borders'}` record for class 0. -/
def exCW : Composer := ⟨1, 5, [(0, Entry.withB exm1 exm2)], true, [0], onesK 2 2⟩

/-- Witness for the amended C3 at the concrete composer `exCW`. -/
theorem c3_border_accumulation_amended_witness :
    (∃ M' B', addMask exCW exm3 1 5 0 (some (0, 0)) =
        .ok (exCW.setMasks (setEntry exCW.masks 0 (.withB M' B'))) ∧
      (∀ y x, B' y x = clip01
        (calcBorder exCW exm1 (place 0 0 exm3 1 5) y x + exm2 y x)) ∧
      (∀ y x, exm2 y x = 1 → B' y x = 1)) ∧
    (∃ M' B', addMask exCW exm3 1 5 0 none =
        .ok (exCW.setMasks (setEntry exCW.masks 0 (.withB M' B'))) ∧
      (∀ y x, B' y x = clip01 (calcBorder exCW exm1 exm3 y x))) ∧
    (∃ S M' B', addMask exCW exm3 1 5 0 none = .ok S ∧
      findEntry S.masks 0 = some (.withB M' B') ∧
      ∀ y x, M' y x ≤ 1 ∧ B' y x ≤ 1) := by
  have hB : ∀ y x, exm2 y x ≤ 1 := fun y x => by unfold exm2; split <;> omega
  refine ⟨?_, ?_, ?_⟩
  · have h := c3_border_accumulation_amended.1 exCW exm3 1 5 0 (0, 0) exm1 exm2
      rfl rfl (by decide) hB
    simpa using h
  · exact c3_border_accumulation_amended.2.1 exCW exm3 1 5 0 exm1 exm2
      rfl rfl (by decide)
  · exact c3_border_accumulation_amended.2.2 exCW exm3 1 5 0 none rfl (by decide)

theorem toNd_data_length (h w : ℕ) (m : Mat) :
    (toNd h w m).data.length = h * w := by
  simp [toNd]

theorem take_one_drop (l : List ℕ) (o : ℕ) (ho : o < l.length) :
    (l.drop o).take 1 = [l.getD o 0] := by
  rw [List.drop_eq_getElem_cons ho]
  simp only [List.take_succ_cons, List.take_zero, List.getD_eq_getElem?_getD,
    List.getElem?_eq_getElem ho, Option.getD_some]

theorem npStack_cons (axis : ℕ) (x : Nd) (rest : List Nd) :
    npStack axis (x :: rest) =
      if (rest.all fun a => a.shape == x.shape) && decide (axis ≤ x.shape.length)
      then some ⟨x.shape.take axis ++ (rest.length + 1) :: x.shape.drop axis,
        (List.range ((x.shape.take axis).prod)).flatMap fun o =>
          (x :: rest).flatMap fun a =>
            (a.data.drop (o * (x.shape.drop axis).prod)).take
              ((x.shape.drop axis).prod)⟩
      else none := rfl

theorem npStack0_pair (sh : List ℕ) (d0 d1 : List ℕ)
    (h0 : d0.length = sh.prod) (h1 : d1.length = sh.prod) :
    npStack 0 [⟨sh, d0⟩, ⟨sh, d1⟩] = some ⟨2 :: sh, d0 ++ d1⟩ := by
  rw [npStack_cons]
  rw [if_pos (by simp)]
  have hr : List.range 1 = [0] := by decide
  simp [hr, List.take_of_length_le h0.le, List.take_of_length_le h1.le]

theorem npStack2_pair (h w : ℕ) (d0 d1 : List ℕ)
    (h0 : d0.length = h * w) (h1 : d1.length = h * w) :
    npStack 2 [⟨[h, w], d0⟩, ⟨[h, w], d1⟩] =
      some ⟨[h, w, 2],
        (List.range (h * w)).flatMap fun o => [d0.getD o 0, d1.getD o 0]⟩ := by
  rw [npStack_cons]
  rw [if_pos (by simp)]
  simp only [List.flatMap_cons, List.flatMap_nil, List.append_nil,
    List.take_succ_cons, List.take_zero, List.drop_succ_cons, List.drop_nil,
    List.prod_cons, List.prod_nil, Nat.mul_one, List.length_cons,
    List.length_nil, List.nil_append, List.cons_append]
  refine congrArg some (congrArg₂ NdA.mk (by norm_num) ?_)
  rw [List.flatMap_def, List.flatMap_def]
  refine congrArg List.flatten (List.map_congr_left ?_)
  intro o ho
  rw [List.mem_range] at ho
  rw [take_one_drop d0 o (by omega), take_one_drop d1 o (by omega)]
  rfl

theorem okBind {ε α β : Type} (a : α) (f : α → Except ε β) :
    (Except.ok a >>= f) = f a := rfl

theorem composeStep_none_plain (C : Composer) (m : Mat) :
    composeStep C none (.plain m) = .ok (some (toNd C.h C.w m)) := rfl

theorem composeStep_some_plain (C : Composer) (r : Nd) (m : Mat) :
    composeStep C (some r) (.plain m) =
      match npStack 0 [r, toNd C.h C.w m] with
      | some r2 => .ok (some r2)
      | none => .error .stackError := rfl

theorem composeStep_none_withB (C : Composer) (m b : Mat) :
    composeStep C none (.withB m b) =
      match npStack 2 [toNd C.h C.w m, toNd C.h C.w b] with
      | some r => .ok (some r)
      | none => .error .stackError := rfl

theorem compose_pair (C : Composer) (c0 c1 : ℕ) (e0 e1 : Entry)
    (hm : C.masks = [(c0, e0), (c1, e1)]) :
    compose C = (composeStep C none e0) >>= fun s => composeStep C s e1 := by
  unfold compose
  rw [hm]
  simp only [List.foldlM_cons, List.foldlM_nil]
  simp [bind_pure]

theorem compose_single (C : Composer) (c : ℕ) (e : Entry)
    (hm : C.masks = [(c, e)]) : compose C = composeStep C none e := by
  unfold compose
  rw [hm]
  simp only [List.foldlM_cons, List.foldlM_nil]
  simp [bind_pure]

theorem compose_two_plain (h w : ℕ) (m0 m1 : Mat) (c0 c1 : ℕ) (bc : Bool)
    (bt : List ℕ) (K : List (List ℕ)) :
    compose ⟨h, w, [(c0, .plain m0), (c1, .plain m1)], bc, bt, K⟩ =
      .ok (some ⟨[2, h, w], (toNd h w m0).data ++ (toNd h w m1).data⟩) := by
  have hs : npStack 0 [toNd h w m0, toNd h w m1] =
      some ⟨2 :: [h, w], (toNd h w m0).data ++ (toNd h w m1).data⟩ :=
    npStack0_pair [h, w] (toNd h w m0).data (toNd h w m1).data
      (by simp [toNd]) (by simp [toNd])
  rw [compose_pair _ c0 c1 _ _ rfl, composeStep_none_plain, okBind]
  show (match npStack 0 [toNd h w m0, toNd h w m1] with
    | some r2 => (Except.ok (some r2) : Except Err (Option Nd))
    | none => Except.error Err.stackError) = _
  rw [hs]

theorem compose_single_withB (h w : ℕ) (m b : Mat) (c : ℕ) (bc : Bool)
    (bt : List ℕ) (K : List (List ℕ)) :
    compose ⟨h, w, [(c, .withB m b)], bc, bt, K⟩ =
      .ok (some ⟨[h, w, 2], (List.range (h * w)).flatMap fun o =>
        [(toNd h w m).data.getD o 0, (toNd h w b).data.getD o 0]⟩) := by
  have hs : npStack 2 [toNd h w m, toNd h w b] =
      some ⟨[h, w, 2], (List.range (h * w)).flatMap fun o =>
        [(toNd h w m).data.getD o 0, (toNd h w b).data.getD o 0]⟩ :=
    npStack2_pair h w (toNd h w m).data (toNd h w b).data
      (by simp [toNd]) (by simp [toNd])
  rw [compose_single _ c _ rfl, composeStep_none_withB]
  show (match npStack 2 [toNd h w m, toNd h w b] with
    | some r => (Except.ok (some r) : Except Err (Option Nd))
    | none => Except.error Err.stackError) = _
  rw [hs]

/-- Counterexample to C4 as stated: composing a `2 × 3` composer holding two
classes added without border tracking yields the shape-`[2, 2, 3]` array
`np.stack((m0, m1), axis=0)` — the two canvases stacked along a new LEADING
axis — which differs from the trailing-axis stack (shape `[2, 3, 2]`) the
claim demands. -/
theorem c4_leading_axis_counterexample :
    exCompose = .ok (some ⟨[2, 2, 3], [0, 1, 0, 0, 0, 0, 0, 0, 0, 0, 0, 1]⟩) ∧
    exTrail = some ⟨[2, 3, 2], [0, 0, 1, 0, 0, 0, 0, 0, 0, 0, 0, 1]⟩ ∧
    (NdA.mk [2, 2, 3] [0, 1, 0, 0, 0, 0, 0, 0, 0, 0, 0, 1] ≠
      NdA.mk [2, 3, 2] [0, 0, 1, 0, 0, 0, 0, 0, 0, 0, 0, 1]) := by
  refine ⟨rfl, by decide, by decide⟩

/-- Claim C4 (amended): `compose()` stacks classes in first-insertion order,
but two classes without border tracking are stacked along a new LEADING axis
(`np.stack(..., axis=0)`, shape `[2, h, w]`), not a trailing one, while a
border-enabled class contributes its `(mask, borders)` channel pair along
trailing axis 2 (shape `[h, w, 2]`, channels interleaved per pixel). -/
theorem c4_compose_amended :
    (∀ (h w : ℕ) (m0 m1 : Mat) (c0 c1 : ℕ) (bc : Bool) (bt : List ℕ)
      (K : List (List ℕ)),
      compose ⟨h, w, [(c0, .plain m0), (c1, .plain m1)], bc, bt, K⟩ =
        .ok (some ⟨[2, h, w], (toNd h w m0).data ++ (toNd h w m1).data⟩)) ∧
    (∀ (h w : ℕ) (m b : Mat) (c : ℕ) (bc : Bool) (bt : List ℕ)
      (K : List (List ℕ)),
      compose ⟨h, w, [(c, .withB m b)], bc, bt, K⟩ =
        .ok (some ⟨[h, w, 2], (List.range (h * w)).flatMap fun o =>
          [(toNd h w m).data.getD o 0, (toNd h w b).data.getD o 0]⟩)) :=
  ⟨fun h w m0 m1 c0 c1 bc bt K => compose_two_plain h w m0 m1 c0 c1 bc bt K,
    fun h w m b c bc bt K => compose_single_withB h w m b c bc bt K⟩

/-- Claim C5, evaluated at the failing input: the decoder does return the
`(None, None)` pair for an object with neither bitmap nor points, but
`_process_target` then passes the `None` mask to `add_mask` unconditionally,
which raises (modelled as `Err.typeError`) — in either border mode — instead
of treating the object as contributing nothing. -/
theorem c5_empty_object_crash :
    objectToMask exEmptyObj = .noContribution ∧
    processTarget false none exEmptyTarget = .error .typeError ∧
    processTarget true none exEmptyTarget = .error .typeError :=
  ⟨rfl, rfl, rfl⟩

/-! Lemmas for the `EmptyClassesAdd` wrapper. -/

theorem flatten_blocks_getD (T : ℕ) (bs : List (List ℕ)) : ∀ (i k : ℕ),
    (∀ b ∈ bs, b.length = T) → i < bs.length → k < T →
    bs.flatten.getD (i * T + k) 0 = (bs.getD i []).getD k 0 := by
  induction bs with
  | nil => intro i k _ hi _; exact absurd hi (by simp)
  | cons b t ih =>
    intro i k hb hi hk
    have hbl : b.length = T := hb b (List.mem_cons_self _ _)
    cases i with
    | zero =>
      rw [List.flatten_cons, Nat.zero_mul, Nat.zero_add,
        List.getD_append _ _ _ _ (by omega)]
      rfl
    | succ j =>
      have hle : b.length ≤ (j + 1) * T + k := by
        rw [hbl, Nat.succ_mul]; omega
      have hsub : (j + 1) * T + k - b.length = j * T + k := by
        rw [hbl, Nat.succ_mul]; omega
      rw [List.flatten_cons, List.getD_append_right _ _ _ _ hle, hsub,
        List.getD_cons_succ]
      exact ih j k (fun x hx => hb x (List.mem_cons_of_mem _ hx))
        (by simpa using hi) hk

theorem expandData_getD (total idx n : ℕ) (src : List ℚ) (i k : ℕ)
    (hi : i < n) (hk : k < total) :
    (expandData total idx n src).getD (i * total + k) 0 =
      if k = idx then u8OfRat (src.getD i 0) else 0 := by
  unfold expandData
  rw [List.flatMap_def,
    flatten_blocks_getD total _ i k
      (by intro b hb
          simp only [List.mem_map] at hb
          obtain ⟨a, _, rfl⟩ := hb
          simp)
      (by simpa using hi) hk]
  have h1 : ((List.range n).map fun j => (List.range total).map fun k' =>
      if k' = idx then u8OfRat (src.getD j 0) else 0).getD i [] =
      (List.range total).map fun k' =>
        if k' = idx then u8OfRat (src.getD i 0) else 0 := by
    rw [List.getD_eq_getElem _ _ (by simpa using hi), List.getElem_map,
      List.getElem_range]
  rw [h1, List.getD_eq_getElem _ _ (by simpa using hk), List.getElem_map,
    List.getElem_range]

theorem expandData_length (total idx n : ℕ) (src : List ℚ) :
    (expandData total idx n src).length = n * total := by
  unfold expandData
  rw [List.length_flatMap]
  have hmap : (List.range n).map
      (List.length ∘ fun i => (List.range total).map fun k =>
        if k = idx then u8OfRat (src.getD i 0) else 0) =
      (List.range n).map fun _ => total :=
    List.map_congr_left fun a _ => by simp
  rw [hmap, List.map_const', List.sum_replicate, smul_eq_mul,
    List.length_range]

theorem egetTarget_2d (total idx s0 s1 : ℕ) (t : NdA ℚ)
    (hidx : idx < total) (hsh : t.shape = [s0, s1]) :
    egetTarget ⟨total, idx⟩ t =
      .ok ⟨[s0, s1, total], expandData total idx (s0 * s1) t.data⟩ := by
  simp only [egetTarget, hsh]
  rw [if_neg (by simp), if_neg (by simp), if_neg (by simp),
    if_neg (by omega), if_neg (by simp)]
  rfl

theorem u8OfRat_natCast (n : ℕ) (hn : n < 256) : u8OfRat (n : ℚ) = n := by
  unfold u8OfRat
  rw [Rat.num_natCast, Rat.den_natCast, Int.toNat_natCast, Nat.div_one,
    Nat.mod_eq_of_lt hn]

theorem natTrunc_eq_floor (q : ℚ) (hq : 0 ≤ q) :
    q.num.toNat / q.den = ⌊q⌋₊ := by
  conv_rhs => rw [← Rat.num_div_den q,
    ← Int.toNat_of_nonneg (Rat.num_nonneg.mpr hq), Int.cast_natCast,
    Nat.floor_div_nat, Nat.floor_natCast]


theorem grid_lt {y x s0 s1 : ℕ} (hy : y < s0) (hx : x < s1) :
    y * s1 + x < s0 * s1 := by
  calc y * s1 + x < y * s1 + s1 := by omega
  _ = (y + 1) * s1 := (Nat.succ_mul y s1).symm
  _ ≤ s0 * s1 := Nat.mul_le_mul_right s1 (by omega)

/-- Counterexample to C6 as stated: the fractional `1 × 1` target holding
`1 / 2` (the Pixart adapter produces such `mask / 255` targets) is accepted
by the normalizer, but the value stored in channel `exists_class_idx` of the
`uint8` output is 0, not the input entry `1 / 2` — the claimed channel
equality fails. -/
theorem c6_fractional_truncation_counterexample :
    egetTarget ⟨3, 1⟩ exT6f = .ok ⟨[1, 1, 3], [0, 0, 0]⟩ ∧
    ndGet2 exT6f 1 0 0 = 1 / 2 ∧
    ((ndGet3 ⟨[1, 1, 3], [0, 0, 0]⟩ 0 0 1 : ℚ) ≠ ndGet2 exT6f 1 0 0) := by
  have hu : u8OfRat ((2 : ℚ)⁻¹) = 0 := by
    unfold u8OfRat
    rw [natTrunc_eq_floor _ (by norm_num), Nat.floor_eq_zero.mpr (by norm_num)]
  have hdata : expandData 3 1 1 exT6f.data = [0, 0, 0] := by
    show expandData 3 1 1 [(1 : ℚ) / 2] = [0, 0, 0]
    have hr1 : List.range 1 = [0] := by decide
    have hr3 : List.range 3 = [0, 1, 2] := by decide
    simp [expandData, hr1, hr3, hu]
  refine ⟨?_, rfl, ?_⟩
  · rw [egetTarget_2d 3 1 1 1 exT6f (by omega) rfl, hdata]
  · show ((0 : ℕ) : ℚ) ≠ (1 : ℚ) / 2
    norm_num

/-- Claim C6 (amended): for every wrapped sample with a 2-D target, the
normalizer returns the same data with a `(s0, s1, total)` zero `uint8`
array in which channel `exists_class_idx` holds the input entry cast to
`uint8` (truncated toward zero) and every other channel is zero; the
channel equals the input exactly when the entry is an integer below 256 —
fractional entries are truncated. -/
theorem c6_normalizer_expansion_amended {α : Type} (total idx s0 s1 : ℕ)
    (d : α) (t : NdA ℚ)
    (hidx : idx < total)
    (hsh : t.shape = [s0, s1]) :
    ∃ r, emptyClassesGet ⟨total, idx⟩ d t = .ok (d, r) ∧
      r.shape = [s0, s1, total] ∧
      r.data.length = s0 * s1 * total ∧
      (∀ y x k, y < s0 → x < s1 → k < total → k ≠ idx →
        ndGet3 r y x k = 0) ∧
      (∀ y x, y < s0 → x < s1 →
        ndGet3 r y x idx = u8OfRat (ndGet2 t s1 y x)) ∧
      (∀ y x (n : ℕ), y < s0 → x < s1 → n < 256 →
        ndGet2 t s1 y x = (n : ℚ) → ndGet3 r y x idx = n) := by
  have hch : ∀ y x, y < s0 → x < s1 →
      (expandData total idx (s0 * s1) t.data).getD
        ((y * s1 + x) * total + idx) 0 = u8OfRat (ndGet2 t s1 y x) := by
    intro y x hy hx
    rw [expandData_getD total idx _ _ _ _ (grid_lt hy hx) hidx, if_pos rfl]
    rfl
  refine ⟨⟨[s0, s1, total], expandData total idx (s0 * s1) t.data⟩,
    ?_, rfl, expandData_length total idx (s0 * s1) t.data, ?_, ?_, ?_⟩
  · unfold emptyClassesGet
    rw [egetTarget_2d total idx s0 s1 t hidx hsh]
    rfl
  · intro y x k hy hx hk hne
    show (expandData total idx (s0 * s1) t.data).getD
      ((y * s1 + x) * total + k) 0 = 0
    rw [expandData_getD total idx _ _ _ _ (grid_lt hy hx) hk, if_neg hne]
  · intro y x hy hx
    exact hch y x hy hx
  · intro y x n hy hx hn hq
    have := hch y x hy hx
    rw [hq, u8OfRat_natCast n hn] at this
    exact this

/-- Witness for the amended C6 at the concrete `1 × 2` target `exT6` with
`total_classes = 3` and `exists_class_idx = 1`. -/
theorem c6_normalizer_expansion_amended_witness :
    ∃ r, emptyClassesGet ⟨3, 1⟩ (0 : ℕ) exT6 = .ok (0, r) ∧
      r.shape = [1, 2, 3] ∧
      r.data.length = 1 * 2 * 3 ∧
      (∀ y x k, y < 1 → x < 2 → k < 3 → k ≠ 1 → ndGet3 r y x k = 0) ∧
      (∀ y x, y < 1 → x < 2 →
        ndGet3 r y x 1 = u8OfRat (ndGet2 exT6 2 y x)) ∧
      (∀ y x (n : ℕ), y < 1 → x < 2 → n < 256 →
        ndGet2 exT6 2 y x = (n : ℚ) → ndGet3 r y x 1 = n) :=
  c6_normalizer_expansion_amended 3 1 1 2 0 exT6 (by omega) rfl

/-- Claim C8: the `EmptyClassesAdd` constructor fails exactly when the
class count is not strictly greater than the existing-class index, and
succeeds exactly otherwise. -/
theorem c8_config_validation (total idx : ℕ) :
    (emptyClassesInit total idx = .error (.configError total idx) ↔
      total ≤ idx) ∧
    (emptyClassesInit total idx = .ok ⟨total, idx⟩ ↔ idx < total) := by
  unfold emptyClassesInit
  by_cases h : total ≤ idx
  · rw [if_pos h]
    refine ⟨⟨fun _ => h, fun _ => rfl⟩, ⟨fun he => ?_, fun hlt => ?_⟩⟩
    · exact Except.noConfusion he
    · exact absurd hlt (by omega)
  · rw [if_neg h]
    refine ⟨⟨fun he => ?_, fun hle => ?_⟩, ⟨fun _ => by omega, fun _ => rfl⟩⟩
    · exact Except.noConfusion he
    · exact absurd hle h

/-- Counterexample to C9 as stated: the 3-D target `exT9` of shape
`(1, 1, 2)` has at most 3 dimensions and only 2 ≤ 3 channels, so the claim
says it is accepted, yet `__getitem__` fails on it — the assignment
`target[:, :, idx] = cur` cannot broadcast a 3-D source into the 2-D
slice. -/
theorem c9_3d_target_rejected_counterexample :
    egetTarget ⟨3, 1⟩ exT9 = .error (.broadcastError [1, 1, 2]) ∧
    exT9.shape.length = 3 ∧ exT9.shape.getD 2 0 ≤ 3 :=
  ⟨rfl, rfl, by decide⟩

/-- Claim C9 (amended): the explicit shape validation raises the
more-than-3-dimensions error (reporting only the shape) exactly on targets
of more than 3 dimensions, and the channel-overflow error (reporting shape
and class count) exactly on 3-D targets with more channels than classes;
but targets passing validation are not all accepted — a read succeeds
exactly on 2-D targets, the rest failing later with an index or broadcast
error. -/
theorem c9_shape_validation_amended (total idx : ℕ) (t : NdA ℚ)
    (hidx : idx < total) :
    (egetTarget ⟨total, idx⟩ t = .error (.tooManyDims t.shape) ↔
      3 < t.shape.length) ∧
    (egetTarget ⟨total, idx⟩ t = .error (.tooManyChannels t.shape total) ↔
      t.shape.length = 3 ∧ total < t.shape.getD 2 0) ∧
    ((egetTarget ⟨total, idx⟩ t).isOk = true ↔ t.shape.length = 2) := by
  simp only [egetTarget]
  split_ifs with h1 h2 h3 h4 h5
  · exact ⟨⟨fun _ => h1, fun _ => rfl⟩,
      ⟨fun he => by simp at he, fun hr => absurd hr.1 (by omega)⟩,
      ⟨fun he => by simp [Except.isOk, Except.toBool] at he, fun hr => by omega⟩⟩
  · exact ⟨⟨fun he => by simp at he, fun hr => absurd hr h1⟩,
      ⟨fun _ => h2, fun _ => rfl⟩,
      ⟨fun he => by simp [Except.isOk, Except.toBool] at he,
        fun hr => by obtain ⟨h2a, h2b⟩ := h2; omega⟩⟩
  · exact ⟨⟨fun he => by simp at he, fun hr => absurd hr h1⟩,
      ⟨fun he => by simp at he, fun hr => absurd hr h2⟩,
      ⟨fun he => by simp [Except.isOk, Except.toBool] at he, fun hr => by omega⟩⟩
  · exact absurd h4 (by omega)
  · exact ⟨⟨fun he => by simp at he, fun hr => absurd hr h1⟩,
      ⟨fun he => by simp at he, fun hr => absurd hr h2⟩,
      ⟨fun he => by simp [Except.isOk, Except.toBool] at he, fun hr => absurd hr h5⟩⟩
  · exact ⟨⟨fun he => by simp at he, fun hr => absurd hr h1⟩,
      ⟨fun he => by simp at he, fun hr => absurd hr h2⟩,
      ⟨fun _ => by omega, fun _ => rfl⟩⟩

/-- Witness for the amended C9 at the concrete 2-D target `exT6`. -/
theorem c9_shape_validation_amended_witness :
    (egetTarget ⟨3, 1⟩ exT6 = .error (.tooManyDims exT6.shape) ↔
      3 < exT6.shape.length) ∧
    (egetTarget ⟨3, 1⟩ exT6 = .error (.tooManyChannels exT6.shape 3) ↔
      exT6.shape.length = 3 ∧ 3 < exT6.shape.getD 2 0) ∧
    ((egetTarget ⟨3, 1⟩ exT6).isOk = true ↔ exT6.shape.length = 2) :=
  c9_shape_validation_amended 3 1 exT6 (by omega)

theorem u8OfRat_pixart (n : ℕ) :
    u8OfRat (pixartNormalize n) = n / 255 % 256 := by
  unfold u8OfRat pixartNormalize
  rw [natTrunc_eq_floor _ (by positivity)]
  rw [show ((255 : ℚ)) = ((255 : ℕ) : ℚ) by norm_num]
  rw [Nat.floor_div_nat, Nat.floor_natCast]

/-- Claim C10: on a 2-D target holding Pixart-normalized pixel values
`v / 255`, the normalizer writes the `uint8` truncation `v / 255 % 256`
(integer division, truncation toward zero) into channel `exists_class_idx`;
in particular every fractional value (pixel value below 255) is truncated
to 0. -/
theorem c10_uint8_truncation (total idx s0 s1 : ℕ) (t : NdA ℚ)
    (f : ℕ → ℕ → ℕ)
    (hidx : idx < total) (hsh : t.shape = [s0, s1])
    (hpix : ∀ y x, y < s0 → x < s1 →
      ndGet2 t s1 y x = pixartNormalize (f y x)) :
    ∃ r, egetTarget ⟨total, idx⟩ t = .ok r ∧
      (∀ y x, y < s0 → x < s1 →
        ndGet3 r y x idx = f y x / 255 % 256) ∧
      (∀ y x, y < s0 → x < s1 → f y x < 255 → ndGet3 r y x idx = 0) := by
  have hkey : ∀ y x, y < s0 → x < s1 →
      (expandData total idx (s0 * s1) t.data).getD
        ((y * s1 + x) * total + idx) 0 = f y x / 255 % 256 := by
    intro y x hy hx
    rw [expandData_getD total idx _ _ _ _ (grid_lt hy hx) hidx, if_pos rfl]
    have hv : t.data.getD (y * s1 + x) 0 = pixartNormalize (f y x) :=
      hpix y x hy hx
    rw [hv, u8OfRat_pixart]
  refine ⟨_, egetTarget_2d total idx s0 s1 t hidx hsh, ?_, ?_⟩
  · intro y x hy hx
    exact hkey y x hy hx
  · intro y x hy hx hf
    have := hkey y x hy hx
    rw [Nat.div_eq_of_lt hf] at this
    exact this

/-- Witness for C10: the `1 × 1` target holding `128 / 255` is written into
channel 0 as the truncated value 0. -/
theorem c10_uint8_truncation_witness :
    ∃ r, egetTarget ⟨2, 0⟩ exT10 = .ok r ∧
      (∀ y x, y < 1 → x < 1 → ndGet3 r y x 0 = 128 / 255 % 256) ∧
      (∀ y x, y < 1 → x < 1 → 128 < 255 → ndGet3 r y x 0 = 0) :=
  c10_uint8_truncation 2 0 1 1 exT10 (fun _ _ => 128) (by omega) rfl
    (by intro y x hy hx
        have hy0 : y = 0 := by omega
        have hx0 : x = 0 := by omega
        subst hy0
        subst hx0
        show ((128 : ℚ) / 255) = pixartNormalize 128
        unfold pixartNormalize
        norm_num)

/-- Claim C7: a polygon annotation with exterior points decodes to a mask
sized to the exterior bounding box — `(max_y - min_y, max_x - min_x)`, the
source's convention, not the full frame — with origin the bounding-box
minimum corner reordered to `(row, col)`; in particular the square
`[(0,0),(0,10),(10,10),(10,0)]` decodes to a fully-filled `10 × 10` binary
mask with origin `(0, 0)`. -/
theorem c7_polygon_decode :
    (∀ (ext int : List (ℤ × ℤ)), ext ≠ [] →
      ∃ om, objectToMask ⟨none, ⟨ext, int⟩⟩ = .objMask om ∧
        om.mh = (listMaxZ (ext.map Prod.snd) -
          listMinZ (ext.map Prod.snd)).toNat ∧
        om.mw = (listMaxZ (ext.map Prod.fst) -
          listMinZ (ext.map Prod.fst)).toNat ∧
        om.origin = (listMinZ (ext.map Prod.snd),
          listMinZ (ext.map Prod.fst))) ∧
    (∃ om, objectToMask ⟨none, ⟨exSquare, []⟩⟩ = .objMask om ∧
      om.mh = 10 ∧ om.mw = 10 ∧ om.origin = (0, 0) ∧
      ∀ y, y < 10 → ∀ x, x < 10 → om.mask y x = 1) := by
  constructor
  · intro ext int hne
    unfold objectToMask
    cases ext with
    | nil => exact absurd rfl hne
    | cons p tl =>
      rw [if_pos (by simp)]
      exact ⟨_, rfl, rfl, rfl, rfl⟩
  · refine ⟨_, rfl, by decide, by decide, by decide, by decide⟩

/-- Witness for C7: the general bounding-box part applied to the square
polygon. -/
theorem c7_polygon_decode_witness :
    ∃ om, objectToMask ⟨none, ⟨exSquare, []⟩⟩ = .objMask om ∧
      om.mh = (listMaxZ (exSquare.map Prod.snd) -
        listMinZ (exSquare.map Prod.snd)).toNat ∧
      om.mw = (listMaxZ (exSquare.map Prod.fst) -
        listMinZ (exSquare.map Prod.fst)).toNat ∧
      om.origin = (listMinZ (exSquare.map Prod.snd),
        listMinZ (exSquare.map Prod.fst)) :=
  c7_polygon_decode.1 exSquare [] (by simp [exSquare])

end PieToolbelt
